import Mathlib

/-!
Verification development for the SpatialPy SSA-SDPD simulation engine core
(src/spatialpy/ssa_sdpd-c-simulation-engine).

The C++ double values are modelled as exact real numbers (no rounding); a
separate IEEE-flavoured value type with infinities and NaN is used where a
claim is specifically about special-value propagation.  Particle neighbor
lists are modelled by explicit state passing: a function that mutates the
owner's list in C++ takes the current list and returns the new one.
-/

set_option maxHeartbeats 1000000

/-- State of a particle at query time, mirroring the fields of the C++
Particle class that the distance and neighbor-list code reads. -/
structure Particle where
  id : Int
  x0 : ℝ
  x1 : ℝ
  x2 : ℝ
  v0 : ℝ := 0
  v1 : ℝ := 0
  v2 : ℝ := 0
  mass : ℝ := 1
  rho : ℝ := 1
  nu : ℝ := 0.01
  solidTag : Int := 0

/-- The parts of the C++ ParticleSystem state read by the neighbor search:
the support radius h and the indexed particle collection. -/
structure ParticleSystem where
  h : ℝ
  dimension : ℕ := 3
  particles : List Particle := []

/-- Modelled from the spec: the "not actually measured" marker returned by the
external ANN library's fixed-radius query for padding entries
(ANN_DIST_INF, the largest finite double).  Its exact value is irrelevant to
the claims; only its role as a distinguished marker matters. -/
noncomputable def ANN_DIST_INF : ℝ := 2 ^ 1024 - 2 ^ 971

/-- Embedding of Particle::particle_dist_sqrd (particle.cpp lines 62-67). -/
def Particle.particle_dist_sqrd (p p2 : Particle) : ℝ :=
  let a := p.x0 - p2.x0
  let b := p.x1 - p2.x1
  let c := p.x2 - p2.x2
  a * a + b * b + c * c

/-- Embedding of Particle::particle_dist (particle.cpp lines 55-60). -/
noncomputable def Particle.particle_dist (p p2 : Particle) : ℝ :=
  let a := p.x0 - p2.x0
  let b := p.x1 - p2.x1
  let c := p.x2 - p2.x2
  Real.sqrt (a * a + b * b + c * c)

/-- The squared distance actually used by add_to_neighbor_list after the
marker check (particle.cpp lines 75-77): a marker value is replaced by the
exact squared distance between the two positions. -/
noncomputable def effectiveR2 (p neighbor : Particle) (r2 : ℝ) : ℝ :=
  if r2 = ANN_DIST_INF then p.particle_dist_sqrd neighbor else r2

/-- Embedding of the dWdr computation of add_to_neighbor_list
(particle.cpp lines 83-86), as a function of the support radius h and the
true distance r. -/
noncomputable def dWdr_fun (h r : ℝ) : ℝ :=
  let R := r / h
  let alpha := 105 / (16 * Real.pi * h * h * h)
  alpha * (-12 * r / (h * h)) * ((1 - R) * (1 - R))

/-- Embedding of the wfd computation of add_to_neighbor_list
(particle.cpp lines 90-93): the hard-coded kernel-derivative-over-r factor
used by the diffusion coefficient. -/
noncomputable def wfd_fun (h r : ℝ) : ℝ :=
  let ih := 1.0 / h
  let ihsq := ih * ih
  let dhr := h - r
  let wfd := -25.066903536973515383 * dhr * dhr * ihsq * ihsq * ihsq * ih
  wfd

/-- Embedding of the D_i_j computation of add_to_neighbor_list
(particle.cpp line 95), with the same left-to-right association as the
C expression. -/
noncomputable def D_i_j_fun (p neighbor : Particle) (h r2 wfd : ℝ) : ℝ :=
  -2.0 * (p.mass * neighbor.mass) / (p.mass + neighbor.mass) *
    (p.rho + neighbor.rho) / (p.rho * neighbor.rho) * r2 * wfd /
    (r2 + 0.01 * h * h)

/-- A neighbor-list edge as pushed by add_to_neighbor_list
(particle.cpp line 113). -/
structure NeighborNode where
  neighbor : Particle
  r : ℝ
  dWdr : ℝ
  D_i_j : ℝ

/-- Embedding of Particle::add_to_neighbor_list (particle.cpp lines 69-116)
over exact reals.  The owner's neighbor list is passed in and the updated
list is returned together with the C return value.  The isnan guard of
lines 97-111 cannot fire in the exact-real model (reals have no NaN); the
IEEE-flavoured model below covers it. -/
noncomputable def Particle.add_to_neighbor_list (p : Particle) (neighbor : Particle)
    (system : ParticleSystem) (r2in : ℝ) (neighbors : List NeighborNode) :
    Int × List NeighborNode :=
  let r2 := effectiveR2 p neighbor r2in
  let r := Real.sqrt r2
  if r > system.h then (0, neighbors)
  else
    let h := system.h
    let dWdr := dWdr_fun h r
    let wfd := wfd_fun h r
    let D_i_j := D_i_j_fun p neighbor h r2 wfd
    (1, neighbors ++ [⟨neighbor, r, dWdr, D_i_j⟩])

/-- Reference owner particle: at the origin with unit mass and density. -/
def pRef : Particle := { id := 0, x0 := 0, x1 := 0, x2 := 0 }

/-- Reference neighbor particle: at distance 0.5 from the origin with unit
mass and density. -/
def qRef : Particle := { id := 1, x0 := 0.5, x1 := 0, x2 := 0 }

/-- Reference system: support radius h = 1. -/
def sysRef : ParticleSystem := { h := 1 }

/-- C10: the distance helpers agree (dist is the square root of dist_sqrd)
and both are symmetric in the two particles. -/
theorem C10_dist_helpers_agree_and_symm (p q : Particle) :
    p.particle_dist q = Real.sqrt (p.particle_dist_sqrd q) ∧
    p.particle_dist q = q.particle_dist p ∧
    p.particle_dist_sqrd q = q.particle_dist_sqrd p := by
  refine ⟨rfl, ?_, ?_⟩
  · simp only [Particle.particle_dist]
    congr 1
    ring
  · simp only [Particle.particle_dist_sqrd]
    ring

/-- C5 counterexample: there is no ordered pair within the support radius,
with differing masses or densities, whose diffusion coefficient differs from
that of the reversed pair: the formula of particle.cpp line 95 is symmetric
in the two particles. -/
theorem C5_counterexample :
    ¬ ∃ (p q : Particle) (sys : ParticleSystem) (r2 : ℝ),
        Real.sqrt r2 ≤ sys.h ∧ (p.mass ≠ q.mass ∨ p.rho ≠ q.rho) ∧
        D_i_j_fun p q sys.h r2 (wfd_fun sys.h (Real.sqrt r2)) ≠
          D_i_j_fun q p sys.h r2 (wfd_fun sys.h (Real.sqrt r2)) := by
  rintro ⟨p, q, sys, r2, -, -, hne⟩
  apply hne
  unfold D_i_j_fun
  ring

/-- C5 amended: the diffusion coefficient of particle.cpp line 95 is
symmetric: for every pair of particles, every support radius and every
common wfd factor, the coefficient for (owner, neighbor) at their common
squared distance equals the coefficient for (neighbor, owner). -/
theorem C5_D_is_symmetric (p q : Particle) (h w : ℝ) :
    D_i_j_fun p q h (p.particle_dist_sqrd q) w =
      D_i_j_fun q p h (q.particle_dist_sqrd p) w := by
  have hd : p.particle_dist_sqrd q = q.particle_dist_sqrd p := by
    unfold Particle.particle_dist_sqrd
    ring
  rw [hd]
  unfold D_i_j_fun
  ring

/-- The marker check replaces ANN_DIST_INF by the exact squared distance. -/
theorem effectiveR2_marker (p q : Particle) :
    effectiveR2 p q ANN_DIST_INF = p.particle_dist_sqrd q := if_pos rfl

/-- Feeding the exact squared distance through the marker check is the
identity. -/
theorem effectiveR2_exact (p q : Particle) :
    effectiveR2 p q (p.particle_dist_sqrd q) = p.particle_dist_sqrd q :=
  ite_self _

/-- C4: calling add_to_neighbor_list with the "not actually measured" marker
is equivalent to calling it with the exact squared distance computed from the
two positions: same decision, same edge values, same return value. -/
theorem C4_marker_equiv (p q : Particle) (sys : ParticleSystem)
    (nl : List NeighborNode) :
    p.add_to_neighbor_list q sys ANN_DIST_INF nl =
      p.add_to_neighbor_list q sys (p.particle_dist_sqrd q) nl := by
  unfold Particle.add_to_neighbor_list
  rw [effectiveR2_marker, effectiveR2_exact]

/-- C1 amended: a candidate whose true distance is strictly greater than the
support radius is excluded by omission: return value 0 and the neighbor list
unchanged. -/
theorem C1_excluded_beyond_radius (p q : Particle) (sys : ParticleSystem)
    (r2in : ℝ) (nl : List NeighborNode)
    (hgt : sys.h < Real.sqrt (effectiveR2 p q r2in)) :
    p.add_to_neighbor_list q sys r2in nl = (0, nl) := by
  unfold Particle.add_to_neighbor_list
  rw [if_pos hgt]

/-- The number 4 is not the ANN marker value. -/
theorem four_ne_marker : (4 : ℝ) ≠ ANN_DIST_INF := by
  unfold ANN_DIST_INF
  norm_num

/-- The number 1 is not the ANN marker value. -/
theorem one_ne_marker : (1 : ℝ) ≠ ANN_DIST_INF := by
  unfold ANN_DIST_INF
  norm_num

/-- Witness for C1: with h = 1 and squared distance 4 (true distance 2 > h),
the call returns 0 and leaves the neighbor list empty. -/
theorem C1_witness :
    Particle.add_to_neighbor_list pRef qRef sysRef 4 [] = (0, []) :=
  C1_excluded_beyond_radius pRef qRef sysRef 4 [] (by
    rw [show effectiveR2 pRef qRef 4 = 4 from if_neg four_ne_marker,
      show (4 : ℝ) = 2 ^ 2 by norm_num, Real.sqrt_sq (by norm_num : (0:ℝ) ≤ 2)]
    norm_num [sysRef])

/-- Evaluation of the boundary case r = h: with h = 1 and squared distance 1
the pair is that far apart exactly, and an edge with r = 1, dWdr = 0 and
D_i_j = 0 is appended with return value 1. -/
theorem add_boundary_eval :
    Particle.add_to_neighbor_list pRef qRef sysRef 1 [] =
      (1, [⟨qRef, 1, 0, 0⟩]) := by
  have heff : effectiveR2 pRef qRef 1 = 1 := if_neg one_ne_marker
  have hsys : sysRef.h = 1 := rfl
  have hW : dWdr_fun 1 1 = 0 := by
    simp only [dWdr_fun]
    norm_num
  have hw : wfd_fun 1 1 = 0 := by
    simp only [wfd_fun]
    norm_num
  have hD : D_i_j_fun pRef qRef 1 1 0 = 0 := by
    simp only [D_i_j_fun]
    norm_num
  simp only [Particle.add_to_neighbor_list, heff, Real.sqrt_one, hsys, hW, hw, hD,
    gt_iff_lt, lt_self_iff_false, if_false, List.nil_append]

/-- C1 counterexample: at the boundary distance r = h exactly (h = 1,
squared distance 1) an edge IS created: the call returns 1 and appends a
node, contradicting exclusion at r = h. -/
theorem C1_counterexample :
    (Particle.add_to_neighbor_list pRef qRef sysRef 1 []).1 = 1 ∧
    (Particle.add_to_neighbor_list pRef qRef sysRef 1 []).2 ≠ [] := by
  rw [add_boundary_eval]
  exact ⟨rfl, by simp⟩

/-- Modelled from the spec: the external ANN k-d tree's fixed-radius search
over the indexed particle positions (Spatial Index contract of spec section
4.1).  It returns every indexed point whose exact squared distance to the
query particle's position is within the squared radius; null padding of the
output arrays is modelled by the take-k discipline in find_neighbors. -/
noncomputable def annkFRSearchList (system : ParticleSystem) (p : Particle)
    (dist : ℝ) : List (Particle × ℝ) :=
  (system.particles.map (fun n => (n, p.particle_dist_sqrd n))).filter
    (fun pr => decide (pr.2 ≤ dist))

/-- Embedding of Particle::get_k__approx (particle.cpp lines 128-130): the
number of points currently indexed in the tree. -/
def Particle.get_k__approx (system : ParticleSystem) : ℕ :=
  system.particles.length

/-- Embedding of Particle::get_k__exact (particle.cpp lines 132-139): the
exact count of in-radius points reported by the fixed-radius search. -/
noncomputable def Particle.get_k__exact (p : Particle) (dist : ℝ)
    (system : ParticleSystem) : ℕ :=
  (annkFRSearchList system p dist).length

/-- Embedding of Particle::find_neighbors (particle.cpp lines 141-181): run
the fixed-radius search with squared radius h*h, pick k by mode, and feed the
first k returned (index, squared-distance) entries to add_to_neighbor_list;
the loop stops at the first null-padding entry, so exactly the first
min(k, number returned) real entries are processed. -/
noncomputable def Particle.find_neighbors (p : Particle) (system : ParticleSystem)
    (use_exact_k : Bool) (neighbors : List NeighborNode) : List NeighborNode :=
  let dist := system.h * system.h
  let k := if use_exact_k then p.get_k__exact dist system
    else Particle.get_k__approx system
  let results := annkFRSearchList system p dist
  (results.take k).foldl
    (fun acc pr => (p.add_to_neighbor_list pr.1 system pr.2 acc).2) neighbors

/-- The fixed-radius search returns at most as many entries as there are
indexed points. -/
theorem annkFRSearchList_length_le (system : ParticleSystem) (p : Particle)
    (dist : ℝ) :
    (annkFRSearchList system p dist).length ≤ system.particles.length := by
  unfold annkFRSearchList
  exact le_trans (List.length_filter_le _ _) (le_of_eq (List.length_map _ _))

/-- C6: for a fixed set of indexed positions, find_neighbors produces the
same neighbor list in exact-k mode and in approximate-k mode. -/
theorem C6_exact_approx_equiv (p : Particle) (system : ParticleSystem)
    (nl : List NeighborNode) :
    p.find_neighbors system true nl = p.find_neighbors system false nl := by
  unfold Particle.find_neighbors Particle.get_k__exact Particle.get_k__approx
  simp only [Bool.false_eq_true, ite_true, ite_false]
  rw [List.take_length,
    List.take_of_length_le (annkFRSearchList_length_le system p _)]

/-- An edge present after an add_to_neighbor_list call was either already in
the list or has its stored distance within the support radius. -/
theorem add_mem_bound {p q : Particle} {sys : ParticleSystem} {r2in : ℝ}
    {nl : List NeighborNode} {e : NeighborNode}
    (he : e ∈ (p.add_to_neighbor_list q sys r2in nl).2) :
    e ∈ nl ∨ e.r ≤ sys.h := by
  unfold Particle.add_to_neighbor_list at he
  by_cases hc : Real.sqrt (effectiveR2 p q r2in) > sys.h
  · rw [if_pos hc] at he
    exact Or.inl he
  · rw [if_neg hc] at he
    simp only [List.mem_append, List.mem_singleton] at he
    rcases he with h1 | h2
    · exact Or.inl h1
    · subst h2
      exact Or.inr (not_lt.mp hc)

/-- Folding add_to_neighbor_list over any entry list preserves the
r-within-h invariant. -/
theorem foldl_adds_bound (p : Particle) (sys : ParticleSystem) :
    ∀ (entries : List (Particle × ℝ)) (nl : List NeighborNode),
      (∀ e ∈ nl, e.r ≤ sys.h) →
      ∀ e ∈ entries.foldl
        (fun acc pr => (p.add_to_neighbor_list pr.1 sys pr.2 acc).2) nl,
        e.r ≤ sys.h := by
  intro entries
  induction entries with
  | nil => intro nl h e he; exact h e he
  | cons hd tl ih =>
    intro nl h e he
    rw [List.foldl_cons] at he
    refine ih _ ?_ e he
    intro e' he'
    rcases add_mem_bound he' with h1 | h2
    · exact h e' h1
    · exact h2

/-- find_neighbors preserves the r-within-h invariant. -/
theorem find_neighbors_bound (p : Particle) (sys : ParticleSystem)
    (ek : Bool) (nl : List NeighborNode) (h : ∀ e ∈ nl, e.r ≤ sys.h) :
    ∀ e ∈ p.find_neighbors sys ek nl, e.r ≤ sys.h := by
  unfold Particle.find_neighbors
  exact foldl_adds_bound p sys _ nl h

/-- One step of a neighbor-list call sequence: either an add_to_neighbor_list
call with a given candidate and squared distance, or a find_neighbors call in
either k mode. -/
inductive NeighborOp where
  | addOp (neighbor : Particle) (r2 : ℝ)
  | findOp (use_exact_k : Bool)

/-- Run a sequence of add_to_neighbor_list / find_neighbors calls against an
owner's neighbor list. -/
noncomputable def runNeighborOps (p : Particle) (system : ParticleSystem) :
    List NeighborOp → List NeighborNode → List NeighborNode
  | [], nl => nl
  | NeighborOp.addOp q r2 :: ops, nl =>
      runNeighborOps p system ops (p.add_to_neighbor_list q system r2 nl).2
  | NeighborOp.findOp ek :: ops, nl =>
      runNeighborOps p system ops (p.find_neighbors system ek nl)

/-- Running any call sequence preserves the r-within-h invariant. -/
theorem runNeighborOps_bound (p : Particle) (sys : ParticleSystem) :
    ∀ (ops : List NeighborOp) (nl : List NeighborNode),
      (∀ e ∈ nl, e.r ≤ sys.h) →
      ∀ e ∈ runNeighborOps p sys ops nl, e.r ≤ sys.h := by
  intro ops
  induction ops with
  | nil => intro nl h e he; exact h e he
  | cons op ops ih =>
    intro nl h e he
    cases op with
    | addOp q r2 =>
      refine ih _ ?_ e he
      intro e' he'
      rcases add_mem_bound he' with h1 | h2
      · exact h e' h1
      · exact h2
    | findOp ek =>
      exact ih _ (find_neighbors_bound p sys ek nl h) e he

/-- C7: after any sequence of find_neighbors / add_to_neighbor_list calls
starting from an empty neighbor list, every stored edge has its distance r
within the support radius h. -/
theorem C7_invariant_r_le_h (p : Particle) (sys : ParticleSystem)
    (ops : List NeighborOp) :
    ∀ e ∈ runNeighborOps p sys ops [], e.r ≤ sys.h := by
  refine runNeighborOps_bound p sys ops [] ?_
  intro e he
  exact absurd he (List.not_mem_nil e)

/-- Witness for C7: the boundary edge created by the concrete call sequence
consisting of one add_to_neighbor_list call at squared distance 1 with h = 1
satisfies r ≤ h. -/
theorem C7_witness : (⟨qRef, 1, 0, 0⟩ : NeighborNode).r ≤ sysRef.h := by
  refine C7_invariant_r_le_h pRef sysRef [NeighborOp.addOp qRef 1]
    ⟨qRef, 1, 0, 0⟩ ?_
  have hrun : runNeighborOps pRef sysRef [NeighborOp.addOp qRef 1] [] =
      [⟨qRef, 1, 0, 0⟩] := by
    simp only [runNeighborOps, add_boundary_eval]
  rw [hrun]
  exact List.mem_singleton_self _

/-- Post-construction state of ParticleSystem::ParticleSystem
(particle.cpp lines 19-34).  Members written by the constructor body are
plain values; the six members whose assignment statement is shadowed by the
like-named constructor parameter are Option-valued, none meaning the member
was never written (indeterminate in C++). -/
structure ParticleSystemInit where
  dimension : ℕ
  bc0 : Char
  bc1 : Char
  bc2 : Char
  static_domain : Int
  num_types : Option ℕ
  num_chem_species : Option ℕ
  num_chem_rxns : Option ℕ
  num_stoch_species : Option ℕ
  num_stoch_rxns : Option ℕ
  num_data_fn : Option ℕ
  gravity0 : ℝ
  gravity1 : ℝ
  gravity2 : ℝ
  kdTree_initialize : Bool

/-- Embedding of ParticleSystem::ParticleSystem (particle.cpp lines 19-34).
Each statement of the form member = parameter is written num_X = num_X with
the parameter shadowing the member, so it assigns the parameter to itself
and the member is never initialized: those members are none. -/
def ParticleSystem.construct (num_types num_chem_species num_chem_rxns
    num_stoch_species num_stoch_rxns num_data_fn : ℕ) : ParticleSystemInit :=
  { dimension := 3
    bc0 := 'n'
    bc1 := 'n'
    bc2 := 'n'
    static_domain := 0
    num_stoch_species := none
    num_stoch_rxns := none
    num_chem_species := none
    num_chem_rxns := none
    num_types := none
    gravity0 := 0
    gravity1 := 0
    gravity2 := 0
    num_data_fn := none
    kdTree_initialize := false }

/-- Post-construction state of Particle::Particle (particle.cpp lines
45-53): id = id assigns the shadowing parameter to itself, so the id member
is never written; the remaining members are initialized to literals. -/
structure ParticleInit where
  id : Option Int
  nu : ℝ
  mass : ℝ
  rho : ℝ
  solidTag : Int
  x0 : ℝ
  x1 : ℝ
  x2 : ℝ
  v0 : ℝ
  v1 : ℝ
  v2 : ℝ

/-- Embedding of Particle::Particle (particle.cpp lines 45-53). -/
def Particle.construct (id : Int) : ParticleInit :=
  { id := none
    nu := 0.01
    mass := 1
    rho := 1
    solidTag := 0
    x0 := 0, x1 := 0, x2 := 0
    v0 := 0, v1 := 0, v2 := 0 }

/-- C8: evaluating the constructors at the failing input: after
ParticleSystem(1,2,3,4,5,6) none of the six parameter-named members holds
the corresponding argument (each is uninitialized), and after Particle(7)
the id member does not hold 7 -- the self-assignments are no-ops, so the
claimed postcondition fails on the code. -/
theorem C8_constructor_selfassign :
    (ParticleSystem.construct 1 2 3 4 5 6).num_types = none ∧
    (ParticleSystem.construct 1 2 3 4 5 6).num_chem_species = none ∧
    (ParticleSystem.construct 1 2 3 4 5 6).num_chem_rxns = none ∧
    (ParticleSystem.construct 1 2 3 4 5 6).num_stoch_species = none ∧
    (ParticleSystem.construct 1 2 3 4 5 6).num_stoch_rxns = none ∧
    (ParticleSystem.construct 1 2 3 4 5 6).num_data_fn = none ∧
    (Particle.construct 7).id = none ∧
    (Particle.construct 7).id ≠ some 7 ∧
    (ParticleSystem.construct 1 2 3 4 5 6).num_types ≠ some 1 := by
  refine ⟨rfl, rfl, rfl, rfl, rfl, rfl, rfl, ?_, ?_⟩ <;> simp [Particle.construct,
    ParticleSystem.construct]

/-- Modelled from the spec: the documented closed form for the diffusion
coefficient as claim C3 reads it -- combining owner/neighbor mass and
density, the kernel derivative dWdr (as the per-unit-distance factor
dWdr / r in place of the code's hard-coded wfd), and the regularization
term 0.01*h*h added to r*r in the denominator. -/
noncomputable def D_i_j_specform (p neighbor : Particle) (h r2 : ℝ) : ℝ :=
  -2.0 * (p.mass * neighbor.mass) / (p.mass + neighbor.mass) *
    (p.rho + neighbor.rho) / (p.rho * neighbor.rho) * r2 *
    (dWdr_fun h (Real.sqrt r2) / Real.sqrt r2) /
    (r2 + 0.01 * h * h)

/-- Square root of the reference squared distance 0.25. -/
theorem sqrt_ref : Real.sqrt 0.25 = 0.5 := by
  rw [show (0.25 : ℝ) = 0.5 ^ 2 by norm_num,
    Real.sqrt_sq (by norm_num : (0:ℝ) ≤ 0.5)]

/-- Kernel derivative at the reference input r = 0.5, h = 1. -/
theorem dWdr_ref : dWdr_fun 1 0.5 = -(315 / (32 * Real.pi)) := by
  have hpi := Real.pi_ne_zero
  simp only [dWdr_fun]
  field_simp
  ring

/-- Hard-coded kernel factor at the reference input r = 0.5, h = 1. -/
theorem wfd_ref : wfd_fun 1 0.5 = -(25.066903536973515383 / 4) := by
  simp only [wfd_fun]
  norm_num

/-- Diffusion coefficient at the reference input: masses 1, densities 1,
h = 1, squared distance 0.25, with the code's wfd factor. -/
theorem D_ref :
    D_i_j_fun pRef qRef 1 0.25 (wfd_fun 1 0.5) =
      25.066903536973515383 * 25 / 52 := by
  rw [wfd_ref]
  simp only [D_i_j_fun, pRef, qRef]
  norm_num

/-- The spec-form diffusion coefficient at the reference input. -/
theorem D_specform_ref :
    D_i_j_specform pRef qRef 1 0.25 = 25 * 78.75 / (52 * Real.pi) := by
  have hpi := Real.pi_ne_zero
  simp only [D_i_j_specform, sqrt_ref, dWdr_ref, pRef, qRef]
  field_simp
  ring

/-- The decimal constant hard-coded at particle.cpp line 93 is not exactly
the closed-form coefficient 78.75 / pi that would make D_i_j a function of
dWdr: pi is irrational. -/
theorem code_const_ne_closed_form :
    (25.066903536973515383 : ℝ) ≠ 78.75 / Real.pi := by
  intro h
  have hpi := Real.pi_ne_zero
  have hC : (25.066903536973515383 : ℝ) ≠ 0 := by norm_num
  have hq : Real.pi = ((78.75 / 25.066903536973515383 : ℚ) : ℝ) := by
    push_cast
    field_simp at h ⊢
    linarith
  exact Rat.not_irrational _ (hq ▸ irrational_pi)

/-- C3 counterexample: at the reference inputs (r = 0.5 h, masses 1,
densities 1, h = 1), the diffusion coefficient computed by the code differs
from the documented closed form built from the kernel derivative dWdr: the
code uses a separate hard-coded decimal constant, and exact equality would
force pi to be rational. -/
theorem C3_counterexample :
    D_i_j_fun pRef qRef 1 0.25 (wfd_fun 1 0.5) ≠
      D_i_j_specform pRef qRef 1 0.25 := by
  rw [D_ref, D_specform_ref]
  intro heq
  apply code_const_ne_closed_form
  have hpi := Real.pi_ne_zero
  field_simp at heq ⊢
  linarith

/-- C3 amended: on the reference inputs r = 0.5 h, masses 1, densities 1,
h = 1 (squared distance 0.25), add_to_neighbor_list appends exactly one edge
whose kernel derivative is the alpha closed form value -315/(32 pi) and
whose diffusion coefficient is the closed form of the code,
25.066903536973515383 * 25 / 52, built from the hard-coded wfd constant. -/
theorem C3_reference_values :
    Particle.add_to_neighbor_list pRef qRef sysRef 0.25 [] =
      (1, [⟨qRef, 0.5, -(315 / (32 * Real.pi)),
        25.066903536973515383 * 25 / 52⟩]) := by
  have heff : effectiveR2 pRef qRef 0.25 = 0.25 := by
    refine if_neg ?_
    unfold ANN_DIST_INF
    norm_num
  have hsys : sysRef.h = 1 := rfl
  have hlt : ¬ ((0.5 : ℝ) > 1) := by norm_num
  simp only [Particle.add_to_neighbor_list, heff, sqrt_ref, hsys, if_neg hlt,
    dWdr_ref, D_ref, List.nil_append]

/-- An IEEE-754-style double for the special-value propagation model: an
exact real magnitude, the two infinities, or NaN.  Rounding, overflow and
the sign of zero are not modelled; zero behaves as positive zero. -/
inductive Fp where
  | fin (x : ℝ)
  | pinf
  | ninf
  | nan

/-- IEEE addition on the special-value model. -/
noncomputable def Fp.add : Fp → Fp → Fp
  | .nan, _ => .nan
  | .fin x, .fin y => .fin (x + y)
  | .fin _, .pinf => .pinf
  | .fin _, .ninf => .ninf
  | .fin _, .nan => .nan
  | .pinf, .fin _ => .pinf
  | .pinf, .pinf => .pinf
  | .pinf, .ninf => .nan
  | .pinf, .nan => .nan
  | .ninf, .fin _ => .ninf
  | .ninf, .pinf => .nan
  | .ninf, .ninf => .ninf
  | .ninf, .nan => .nan

/-- IEEE subtraction on the special-value model. -/
noncomputable def Fp.sub : Fp → Fp → Fp
  | .nan, _ => .nan
  | .fin x, .fin y => .fin (x - y)
  | .fin _, .pinf => .ninf
  | .fin _, .ninf => .pinf
  | .fin _, .nan => .nan
  | .pinf, .fin _ => .pinf
  | .pinf, .pinf => .nan
  | .pinf, .ninf => .pinf
  | .pinf, .nan => .nan
  | .ninf, .fin _ => .ninf
  | .ninf, .pinf => .ninf
  | .ninf, .ninf => .nan
  | .ninf, .nan => .nan

/-- IEEE multiplication on the special-value model: infinity times zero is
NaN, otherwise signs multiply. -/
noncomputable def Fp.mul : Fp → Fp → Fp
  | .nan, _ => .nan
  | .fin x, .fin y => .fin (x * y)
  | .fin x, .pinf => if 0 < x then .pinf else if x < 0 then .ninf else .nan
  | .fin x, .ninf => if 0 < x then .ninf else if x < 0 then .pinf else .nan
  | .fin _, .nan => .nan
  | .pinf, .fin y => if 0 < y then .pinf else if y < 0 then .ninf else .nan
  | .pinf, .pinf => .pinf
  | .pinf, .ninf => .ninf
  | .pinf, .nan => .nan
  | .ninf, .fin y => if 0 < y then .ninf else if y < 0 then .pinf else .nan
  | .ninf, .pinf => .ninf
  | .ninf, .ninf => .pinf
  | .ninf, .nan => .nan

/-- IEEE division on the special-value model: a nonzero finite value over
zero gives a signed infinity (zero counting as positive), zero over zero
and infinity over infinity give NaN. -/
noncomputable def Fp.div : Fp → Fp → Fp
  | .nan, _ => .nan
  | .fin x, .fin y =>
      if y = 0 then (if 0 < x then .pinf else if x < 0 then .ninf else .nan)
      else .fin (x / y)
  | .fin _, .pinf => .fin 0
  | .fin _, .ninf => .fin 0
  | .fin _, .nan => .nan
  | .pinf, .fin y => if 0 ≤ y then .pinf else .ninf
  | .pinf, .pinf => .nan
  | .pinf, .ninf => .nan
  | .pinf, .nan => .nan
  | .ninf, .fin y => if 0 ≤ y then .ninf else .pinf
  | .ninf, .pinf => .nan
  | .ninf, .ninf => .nan
  | .ninf, .nan => .nan

/-- IEEE square root on the special-value model: NaN on negative inputs. -/
noncomputable def Fp.sqrtF : Fp → Fp
  | .nan => .nan
  | .pinf => .pinf
  | .ninf => .nan
  | .fin x => if x < 0 then .nan else .fin (Real.sqrt x)

/-- IEEE greater-than on the special-value model: any comparison with NaN
is false. -/
noncomputable def Fp.gtb : Fp → Fp → Bool
  | .nan, _ => false
  | .fin x, .fin y => decide (y < x)
  | .fin _, .pinf => false
  | .fin _, .ninf => true
  | .fin _, .nan => false
  | .pinf, .fin _ => true
  | .pinf, .pinf => false
  | .pinf, .ninf => true
  | .pinf, .nan => false
  | .ninf, .fin _ => false
  | .ninf, .pinf => false
  | .ninf, .ninf => false
  | .ninf, .nan => false

/-- The isnan predicate of math.h. -/
def Fp.isnan : Fp → Bool
  | .nan => true
  | _ => false

/-- The isfinite predicate of math.h. -/
def Fp.isfinite : Fp → Bool
  | .fin _ => true
  | _ => false

/-- Fp computation of alpha (particle.cpp line 85). -/
noncomputable def alpha_fp (h : ℝ) : Fp :=
  Fp.div (Fp.fin 105)
    (Fp.mul (Fp.mul (Fp.mul (Fp.fin (16 * Real.pi)) (Fp.fin h)) (Fp.fin h))
      (Fp.fin h))

/-- Fp computation of dWdr (particle.cpp lines 84-86). -/
noncomputable def dWdr_fp (h : ℝ) (r : Fp) : Fp :=
  let hf := Fp.fin h
  let R := Fp.div r hf
  Fp.mul
    (Fp.mul (alpha_fp h) (Fp.div (Fp.mul (Fp.fin (-12)) r) (Fp.mul hf hf)))
    (Fp.mul (Fp.sub (Fp.fin 1) R) (Fp.sub (Fp.fin 1) R))

/-- Fp computation of wfd (particle.cpp lines 90-93). -/
noncomputable def wfd_fp (h : ℝ) (r : Fp) : Fp :=
  let hf := Fp.fin h
  let ih := Fp.div (Fp.fin 1.0) hf
  let ihsq := Fp.mul ih ih
  let dhr := Fp.sub hf r
  Fp.mul
    (Fp.mul
      (Fp.mul
        (Fp.mul (Fp.mul (Fp.mul (Fp.fin (-25.066903536973515383)) dhr) dhr)
          ihsq)
        ihsq)
      ihsq)
    ih

/-- Fp computation of D_i_j (particle.cpp line 95), with the left-to-right
association of the C expression. -/
noncomputable def D_i_j_fp (p neighbor : Particle) (r2 h : ℝ) (wfd : Fp) : Fp :=
  let t1 := Fp.mul (Fp.fin (-2.0)) (Fp.fin (p.mass * neighbor.mass))
  let t2 := Fp.div t1 (Fp.fin (p.mass + neighbor.mass))
  let t3 := Fp.mul t2 (Fp.fin (p.rho + neighbor.rho))
  let t4 := Fp.div t3 (Fp.fin (p.rho * neighbor.rho))
  let t5 := Fp.mul t4 (Fp.fin r2)
  let t6 := Fp.mul t5 wfd
  Fp.div t6 (Fp.fin (r2 + 0.01 * h * h))

/-- The diagnostic context printed before exit(1) (particle.cpp lines
98-108): both particle ids, r, h, alpha, dWdr, and both particles' mass
and rho. -/
structure NanDiag where
  me_id : Int
  neighbor_id : Int
  r : Fp
  h : ℝ
  alpha : Fp
  dWdr : Fp
  mass : ℝ
  rho : ℝ
  n_mass : ℝ
  n_rho : ℝ

/-- An edge as pushed in the Fp model. -/
structure NeighborNodeFp where
  neighbor : Particle
  r : Fp
  dWdr : Fp
  D_i_j : Fp

/-- Outcome of add_to_neighbor_list in the Fp model: return 0 without
appending, abort via exit(1) with the printed diagnostics, or return 1 with
the node appended. -/
inductive AddResultFp where
  | excluded
  | aborted (diag : NanDiag)
  | added (node : NeighborNodeFp)

/-- Whether the outcome is the abort. -/
def AddResultFp.aborts : AddResultFp → Bool
  | .aborted _ => true
  | _ => false

/-- The appended node's diffusion coefficient, if a node was appended. -/
def AddResultFp.Dvalue : AddResultFp → Option Fp
  | .added node => some node.D_i_j
  | _ => none

/-- Embedding of Particle::add_to_neighbor_list (particle.cpp lines 69-116)
in the IEEE-flavoured value model: same structure as the exact-real
embedding, but every double operation propagates infinities and NaN, and
the isnan guard of lines 97-111 is represented by the aborted outcome. -/
noncomputable def Particle.add_to_neighbor_list_fp (p neighbor : Particle)
    (system : ParticleSystem) (r2in : ℝ) : AddResultFp :=
  let r2 := effectiveR2 p neighbor r2in
  let r := Fp.sqrtF (Fp.fin r2)
  if Fp.gtb r (Fp.fin system.h) then AddResultFp.excluded
  else
    let h := system.h
    let dWdr := dWdr_fp h r
    let wfd := wfd_fp h r
    let D_i_j := D_i_j_fp p neighbor r2 h wfd
    if Fp.isnan D_i_j then
      AddResultFp.aborted
        ⟨p.id, neighbor.id, r, h, alpha_fp h, dWdr, p.mass, p.rho,
          neighbor.mass, neighbor.rho⟩
    else
      AddResultFp.added ⟨neighbor, r, dWdr, D_i_j⟩

/-- C2 amended: for a pair that passes the support-radius guard, the call
aborts with the full diagnostic context (both ids, r, h, alpha, dWdr, both
masses and densities) exactly when the computed D_i_j is NaN; when D_i_j is
not NaN -- finite or infinite -- no abort occurs and the edge carrying that
D_i_j is appended. -/
theorem C2_abort_iff_nan (p q : Particle) (sys : ParticleSystem) (r2in : ℝ)
    (hin : Fp.gtb (Fp.sqrtF (Fp.fin (effectiveR2 p q r2in)))
      (Fp.fin sys.h) = false) :
    (Fp.isnan (D_i_j_fp p q (effectiveR2 p q r2in) sys.h
        (wfd_fp sys.h (Fp.sqrtF (Fp.fin (effectiveR2 p q r2in))))) = true →
      p.add_to_neighbor_list_fp q sys r2in =
        AddResultFp.aborted
          ⟨p.id, q.id, Fp.sqrtF (Fp.fin (effectiveR2 p q r2in)), sys.h,
            alpha_fp sys.h,
            dWdr_fp sys.h (Fp.sqrtF (Fp.fin (effectiveR2 p q r2in))),
            p.mass, p.rho, q.mass, q.rho⟩) ∧
    (Fp.isnan (D_i_j_fp p q (effectiveR2 p q r2in) sys.h
        (wfd_fp sys.h (Fp.sqrtF (Fp.fin (effectiveR2 p q r2in))))) = false →
      p.add_to_neighbor_list_fp q sys r2in =
        AddResultFp.added
          ⟨q, Fp.sqrtF (Fp.fin (effectiveR2 p q r2in)),
            dWdr_fp sys.h (Fp.sqrtF (Fp.fin (effectiveR2 p q r2in))),
            D_i_j_fp p q (effectiveR2 p q r2in) sys.h
              (wfd_fp sys.h
                (Fp.sqrtF (Fp.fin (effectiveR2 p q r2in))))⟩) := by
  constructor
  · intro hnan
    simp only [Particle.add_to_neighbor_list_fp, hin, Bool.false_eq_true,
      if_false, hnan, if_true]
  · intro hnan
    simp only [Particle.add_to_neighbor_list_fp, hin, hnan,
      Bool.false_eq_true, if_false]

/-- The reference squared distance 0.25 is not the ANN marker. -/
theorem effectiveR2_ref : effectiveR2 pRef qRef 0.25 = 0.25 := by
  refine if_neg ?_
  unfold ANN_DIST_INF
  norm_num

/-- Fp square root of the reference squared distance. -/
theorem sqrtF_ref : Fp.sqrtF (Fp.fin 0.25) = Fp.fin 0.5 := by
  simp only [Fp.sqrtF, sqrt_ref]
  norm_num

/-- The reference pair passes the support-radius guard in the Fp model. -/
theorem gtb_ref : Fp.gtb (Fp.fin 0.5) (Fp.fin 1) = false := by
  simp only [Fp.gtb]
  norm_num

/-- Fp evaluation of wfd at the reference input r = 0.5, h = 1. -/
theorem wfd_fp_ref :
    wfd_fp 1 (Fp.fin 0.5) = Fp.fin (-(25.066903536973515383 / 4)) := by
  simp only [wfd_fp, Fp.div, Fp.mul, Fp.sub]
  norm_num

/-- Fp evaluation of D_i_j at the benign reference input: a finite value. -/
theorem D_fp_ref :
    D_i_j_fp pRef qRef 0.25 1 (wfd_fp 1 (Fp.fin 0.5)) =
      Fp.fin (25.066903536973515383 * 25 / 52) := by
  rw [wfd_fp_ref]
  simp only [D_i_j_fp, Fp.mul, Fp.div, pRef, qRef]
  norm_num

/-- Witness for C2: at the benign reference input (masses 1, densities 1,
h = 1, squared distance 0.25) the coefficient is not NaN, so no abort
occurs and the edge is appended. -/
theorem C2_witness :
    Particle.add_to_neighbor_list_fp pRef qRef sysRef 0.25 =
      AddResultFp.added
        ⟨qRef, Fp.sqrtF (Fp.fin (effectiveR2 pRef qRef 0.25)),
          dWdr_fp sysRef.h (Fp.sqrtF (Fp.fin (effectiveR2 pRef qRef 0.25))),
          D_i_j_fp pRef qRef (effectiveR2 pRef qRef 0.25) sysRef.h
            (wfd_fp sysRef.h
              (Fp.sqrtF (Fp.fin (effectiveR2 pRef qRef 0.25))))⟩ :=
  (C2_abort_iff_nan pRef qRef sysRef 0.25
    (by rw [effectiveR2_ref, sqrtF_ref]; exact gtb_ref)).2
    (by rw [effectiveR2_ref, sqrtF_ref, show sysRef.h = 1 from rfl, D_fp_ref]
        rfl)

/-- A neighbor particle with density zero: physically degenerate input the
code does not guard against. -/
def qZeroRho : Particle := { id := 2, x0 := 0.5, x1 := 0, x2 := 0, rho := 0 }

/-- The squared distance 0.25 is not the marker for the degenerate pair. -/
theorem effectiveR2_zeroRho : effectiveR2 pRef qZeroRho 0.25 = 0.25 := by
  refine if_neg ?_
  unfold ANN_DIST_INF
  norm_num

/-- Fp evaluation of D_i_j for the degenerate pair: positive infinity, which
is not finite yet not NaN. -/
theorem D_fp_zeroRho :
    D_i_j_fp pRef qZeroRho 0.25 1 (wfd_fp 1 (Fp.fin 0.5)) = Fp.pinf := by
  rw [wfd_fp_ref]
  simp only [D_i_j_fp, Fp.mul, Fp.div, pRef, qZeroRho]
  norm_num

/-- C2 counterexample: for the in-radius pair with owner density 1 and
neighbor density 0, the computed D_i_j is positive infinity -- not a finite
number -- yet the call does not abort: the isnan guard passes and the edge
is appended carrying the infinite coefficient. -/
theorem C2_counterexample :
    (Particle.add_to_neighbor_list_fp pRef qZeroRho sysRef 0.25).aborts
        = false ∧
    (Particle.add_to_neighbor_list_fp pRef qZeroRho sysRef 0.25).Dvalue
        = some Fp.pinf ∧
    Fp.isfinite Fp.pinf = false := by
  have hres : Particle.add_to_neighbor_list_fp pRef qZeroRho sysRef 0.25 =
      AddResultFp.added
        ⟨qZeroRho, Fp.fin 0.5, dWdr_fp 1 (Fp.fin 0.5), Fp.pinf⟩ := by
    simp only [Particle.add_to_neighbor_list_fp, effectiveR2_zeroRho,
      sqrtF_ref, show sysRef.h = 1 from rfl, gtb_ref, Bool.false_eq_true,
      if_false, D_fp_zeroRho, Fp.isnan]
  rw [hres]
  exact ⟨rfl, rfl, rfl⟩

/-- Modelled from the spec: one entry of the event-time heap of spec section
4.5 (the ordered_list_t of simulate_rdme.h line 41, whose implementation is
not part of the excerpt): entity id, scheduled absolute time, and the
insertion sequence number used for deterministic tie-breaking.  Times are
rational so the model is executable. -/
structure HeapEntry where
  entity : ℕ
  time : ℚ
  seq : ℕ
deriving DecidableEq

/-- Heap priority order: strictly earlier scheduled time first, ties broken
by insertion order. -/
def heapLe (a b : HeapEntry) : Prop :=
  a.time < b.time ∨ (a.time = b.time ∧ a.seq ≤ b.seq)

instance : DecidableRel heapLe := fun a b => by
  unfold heapLe
  infer_instance

instance : IsTotal HeapEntry heapLe :=
  ⟨by
    intro a b
    unfold heapLe
    rcases lt_trichotomy a.time b.time with h | h | h
    · exact Or.inl (Or.inl h)
    · rcases Nat.le_total a.seq b.seq with hs | hs
      · exact Or.inl (Or.inr ⟨h, hs⟩)
      · exact Or.inr (Or.inr ⟨h.symm, hs⟩)
    · exact Or.inr (Or.inl h)⟩

instance : IsTrans HeapEntry heapLe :=
  ⟨by
    intro a b c hab hbc
    unfold heapLe at hab hbc ⊢
    rcases hab with h1 | ⟨h1, h1s⟩
    · rcases hbc with h2 | ⟨h2, _⟩
      · exact Or.inl (h1.trans h2)
      · exact Or.inl (lt_of_lt_of_le h1 (le_of_eq h2))
    · rcases hbc with h2 | ⟨h2, h2s⟩
      · exact Or.inl (lt_of_le_of_lt (le_of_eq h1) h2)
      · exact Or.inr ⟨h1.trans h2, h1s.trans h2s⟩⟩

/-- Modelled from the spec: the event schedule state: the pending entries in
priority order plus the next insertion sequence number. -/
structure EventHeap where
  entries : List HeapEntry
  nextSeq : ℕ
deriving DecidableEq

/-- The empty schedule. -/
def EventHeap.empty : EventHeap := ⟨[], 0⟩

/-- Modelled from the spec: insert(entity_id, time) places the new entry by
scheduled time; at equal times a later-inserted entry goes after earlier
ones. -/
def EventHeap.insert (s : EventHeap) (entity : ℕ) (t : ℚ) : EventHeap :=
  ⟨List.orderedInsert heapLe ⟨entity, t, s.nextSeq⟩ s.entries, s.nextSeq + 1⟩

/-- Modelled from the spec: update(entity_id, new_time) removes the
entity's entry and re-inserts it at the new time as the most recent
insertion. -/
def EventHeap.update (s : EventHeap) (entity : ℕ) (t : ℚ) : EventHeap :=
  ⟨List.orderedInsert heapLe ⟨entity, t, s.nextSeq⟩
    (s.entries.filter (fun e => e.entity != entity)), s.nextSeq + 1⟩

/-- Modelled from the spec: pop_min returns the earliest pending entry and
the remaining schedule, or none when empty. -/
def EventHeap.pop_min (s : EventHeap) : Option (HeapEntry × EventHeap) :=
  match s.entries with
  | [] => none
  | e :: rest => some (e, ⟨rest, s.nextSeq⟩)

/-- One schedule operation: an insert or an update. -/
inductive HeapOp where
  | ins (entity : ℕ) (t : ℚ)
  | upd (entity : ℕ) (t : ℚ)

/-- Apply one schedule operation. -/
def heapStep (s : EventHeap) : HeapOp → EventHeap
  | HeapOp.ins entity t => s.insert entity t
  | HeapOp.upd entity t => s.update entity t

/-- Run a sequence of insert/update operations from the empty schedule. -/
def runHeapOps (ops : List HeapOp) : EventHeap :=
  ops.foldl heapStep EventHeap.empty

/-- Every schedule operation preserves the priority ordering of the entry
list. -/
theorem heapStep_sorted (s : EventHeap) (op : HeapOp)
    (h : s.entries.Sorted heapLe) : (heapStep s op).entries.Sorted heapLe := by
  cases op with
  | ins entity t => exact List.Sorted.orderedInsert _ _ h
  | upd entity t => exact List.Sorted.orderedInsert _ _ (List.Pairwise.filter _ h)

/-- Any operation sequence from the empty schedule yields an ordered entry
list. -/
theorem runHeapOps_sorted (ops : List HeapOp) :
    (runHeapOps ops).entries.Sorted heapLe := by
  suffices hgen : ∀ (l : List HeapOp) (s : EventHeap),
      s.entries.Sorted heapLe → (l.foldl heapStep s).entries.Sorted heapLe by
    exact hgen ops EventHeap.empty List.sorted_nil
  intro l
  induction l with
  | nil => intro s hs; exact hs
  | cons op l ih =>
    intro s hs
    exact ih _ (heapStep_sorted s op hs)

/-- C9: after any sequence of insert/update operations, pop_min returns the
entry with the smallest scheduled time among all pending entries, ties
broken deterministically by insertion order. -/
theorem C9_pop_min_is_minimum (ops : List HeapOp) (e : HeapEntry)
    (s' : EventHeap) (hpop : (runHeapOps ops).pop_min = some (e, s')) :
    ∀ e' ∈ (runHeapOps ops).entries,
      e.time < e'.time ∨ (e.time = e'.time ∧ e.seq ≤ e'.seq) := by
  intro e' he'
  have hs := runHeapOps_sorted ops
  unfold EventHeap.pop_min at hpop
  cases hl : (runHeapOps ops).entries with
  | nil =>
    rw [hl] at he'
    exact absurd he' (List.not_mem_nil e')
  | cons e0 rest =>
    rw [hl] at hpop hs he'
    simp only [Option.some.injEq, Prod.mk.injEq] at hpop
    have he0 : e = e0 := hpop.1.symm
    subst he0
    rw [List.sorted_cons] at hs
    rcases List.mem_cons.mp he' with h | h
    · subst h
      exact Or.inr ⟨rfl, le_refl _⟩
    · exact hs.1 e' h

/-- Witness for C9: on the concrete sequence insert(1, t=5), insert(2, t=3),
update(1, t=2), pop_min returns entity 1 at time 2, which is at or before
the remaining entry (entity 2 at time 3). -/
theorem C9_witness :
    (⟨1, 2, 2⟩ : HeapEntry).time < (⟨2, 3, 1⟩ : HeapEntry).time ∨
      ((⟨1, 2, 2⟩ : HeapEntry).time = (⟨2, 3, 1⟩ : HeapEntry).time ∧
        (⟨1, 2, 2⟩ : HeapEntry).seq ≤ (⟨2, 3, 1⟩ : HeapEntry).seq) :=
  C9_pop_min_is_minimum [HeapOp.ins 1 5, HeapOp.ins 2 3, HeapOp.upd 1 2]
    ⟨1, 2, 2⟩ ⟨[⟨2, 3, 1⟩], 3⟩ (by decide) ⟨2, 3, 1⟩ (by decide)
